import Mathlib

/-!
Formal model of the ml-service core.

A shallow embedding, in Lean 4, of the core of the stock-forecasting
service: the data-cleaning pipeline (`utils/data_processor.py`), the
per-ticker predictor (`models/stock_predictor.py`) and the forecast
formatting step of the API handler (`main.py`).

Conventions of the embedding:
* pandas `DataFrame`s of daily bars become `List Row`; the datetime index
  becomes an integer day number `date : ℤ`; a `NaN` cell becomes `none`.
* float arithmetic is idealised as exact rational arithmetic on `ℚ`;
  `numpy.sqrt` (used only inside Bollinger-band and volatility values) is
  kept abstract as a function parameter `sq : ℚ → ℚ`, since no observable
  behaviour of the pipeline depends on its values.
* elementwise float division is modelled as `none` when the denominator is
  zero (the float `inf`/`nan` results never feed any control decision).
* the trained Keras network is opaque: a `Model` is an arbitrary function
  from an input window to a scaled prediction, supplied by a `FitOracle`.
* Python exceptions are modelled with `Except`; `try/except` blocks that
  swallow errors become explicit `catchD` wrappers, with Boolean fault
  flags standing for "this step raised".
-/

/-- The technical-indicator columns attached by
`DataProcessor._add_technical_indicators`.  Each cell is `Option ℚ`
(`none` = `NaN`). -/
structure IndRow where
  sma5 : Option ℚ
  sma10 : Option ℚ
  sma20 : Option ℚ
  ema12 : Option ℚ
  ema26 : Option ℚ
  macd : Option ℚ
  macdSignal : Option ℚ
  rsi : Option ℚ
  bbMiddle : Option ℚ
  bbUpper : Option ℚ
  bbLower : Option ℚ
  priceChange : Option ℚ
  priceChangePct : Option ℚ
  volumeSMA : Option ℚ
  volumeRatio : Option ℚ
  volatility : Option ℚ
deriving DecidableEq

/-- One row of a bar DataFrame: the datetime index as an integer day
number, the five core columns (`Open, High, Low, Close, Volume`; the
field `open_` renders Python's `Open`, since `open` is a Lean keyword),
and the indicator columns when they have been attached
(`inds = none` for a raw frame).  The optional `Adj Close` column is not
modelled; it feeds no behaviour covered here. -/
structure Row where
  date : ℤ
  open_ : Option ℚ
  high : Option ℚ
  low : Option ℚ
  close : Option ℚ
  volume : Option ℚ
  inds : Option IndRow
deriving DecidableEq

/-- Default row used with positional `getD` access. -/
def dRow : Row := ⟨0, none, none, none, none, none, none⟩

/-- Strip the indicator columns, keeping the index and the five core
columns: the "base" content of a row. -/
def base (r : Row) : Row := { r with inds := none }

/-- `a - b` on nullable cells (pandas elementwise subtraction). -/
def optSub (a b : Option ℚ) : Option ℚ :=
  match a, b with
  | some a, some b => some (a - b)
  | _, _ => none

/-- `a + b` on nullable cells. -/
def optAdd (a b : Option ℚ) : Option ℚ :=
  match a, b with
  | some a, some b => some (a + b)
  | _, _ => none

/-- `c * a` on a nullable cell. -/
def optScale (c : ℚ) (a : Option ℚ) : Option ℚ := a.map (fun x => c * x)

/-- `a / b` on nullable cells; a zero denominator is modelled as `none`
(the float result `±inf`/`nan` never feeds a control decision). -/
def optDiv (a b : Option ℚ) : Option ℚ :=
  match a, b with
  | some a, some b => if b = 0 then none else some (a / b)
  | _, _ => none

/-- `Series.median()` (skips `NaN` by construction: callers pass the
non-null values): midpoint of the sorted list, mean of the two middle
elements for even length, `none` for an empty list. -/
def median (l : List ℚ) : Option ℚ :=
  let s := List.insertionSort (· ≤ ·) l
  let n := s.length
  if n = 0 then none
  else if n % 2 = 1 then some (s.getD (n / 2) 0)
  else some ((s.getD (n / 2 - 1) 0 + s.getD (n / 2) 0) / 2)

/-- `Series.quantile(0.99)` with pandas' default linear interpolation,
on the non-null values `vs`; `none` when there are none. -/
def quantile99 (vs : List ℚ) : Option ℚ :=
  let s := List.insertionSort (· ≤ ·) vs
  let n := s.length
  if n = 0 then none
  else
    let h : ℚ := 0.99 * ((n : ℚ) - 1)
    let i0 : ℕ := (⌊h⌋).toNat
    if i0 + 1 < n then
      some (s.getD i0 0 + (h - (i0 : ℚ)) * (s.getD (i0 + 1) 0 - s.getD i0 0))
    else some (s.getD (n - 1) 0)

/-- The positions `max (i+1-w) 0 .. i` of a rolling window of width `w`
ending at position `i` (pandas windows are truncated at the start). -/
def rollWindow (w : ℕ) (xs : List (Option ℚ)) (i : ℕ) : List (Option ℚ) :=
  (xs.take (i + 1)).drop (i + 1 - w)

/-- `Series.rolling(window=w).mean()` at position `i` (default
`min_periods = w`: `none` unless the window holds `w` non-null values). -/
def rollingMean (w : ℕ) (xs : List (Option ℚ)) (i : ℕ) : Option ℚ :=
  let vals := (rollWindow w xs i).filterMap id
  if vals.length < w then none else some (vals.sum / (vals.length : ℚ))

/-- `Series.rolling(window=w).std()` at position `i`: sample standard
deviation (`ddof = 1`) of the window, with `numpy` square root kept
abstract as `sq`. -/
def rollingStd (sq : ℚ → ℚ) (w : ℕ) (xs : List (Option ℚ)) (i : ℕ) : Option ℚ :=
  let vals := (rollWindow w xs i).filterMap id
  if vals.length < w then none
  else
    let m := vals.sum / (vals.length : ℚ)
    some (sq ((vals.map (fun x => (x - m) * (x - m))).sum / ((vals.length : ℚ) - 1)))

/-- Rolling mean over a plain (never-null) series, as produced for the
RSI gain/loss columns; `min_periods = w`. -/
def rollingMeanQ (w : ℕ) (xs : List ℚ) (i : ℕ) : Option ℚ :=
  let vals := (xs.take (i + 1)).drop (i + 1 - w)
  if vals.length < w then none else some (vals.sum / (vals.length : ℚ))

/-- `Series.diff()` at position `i`: `x_i - x_(i-1)`, `none` at position 0
or when either cell is null. -/
def diffAt (xs : List (Option ℚ)) (i : ℕ) : Option ℚ :=
  if i = 0 then none else optSub (xs.getD i none) (xs.getD (i - 1) none)

/-- `Series.pct_change()` at position `i`: `x_i / x_(i-1) - 1`. -/
def pctAt (xs : List (Option ℚ)) (i : ℕ) : Option ℚ :=
  if i = 0 then none
  else
    match xs.getD (i - 1) none, xs.getD i none with
    | some a, some b => if a = 0 then none else some (b / a - 1)
    | _, _ => none

/-- The `Price_Change_Pct` column. -/
def pctCol (xs : List (Option ℚ)) : List (Option ℚ) :=
  (List.range xs.length).map (pctAt xs)

/-- One step of `Series.ewm(span).mean()` with pandas defaults
(`adjust=True`, `ignore_na=False`): carry the weighted numerator and
denominator, decaying both by `1-α` at every position. -/
def ewmGo (alpha : ℚ) : List (Option ℚ) → ℚ → ℚ → List (Option ℚ)
  | [], _, _ => []
  | x :: t, num, den =>
    let num1 := num * (1 - alpha)
    let den1 := den * (1 - alpha)
    match x with
    | some v => some ((num1 + v) / (den1 + 1)) :: ewmGo alpha t (num1 + v) (den1 + 1)
    | none =>
      (if den1 = 0 then none else some (num1 / den1)) :: ewmGo alpha t num1 den1

/-- `Series.ewm(span=span).mean()` as a column. -/
def ewmCol (span : ℕ) (xs : List (Option ℚ)) : List (Option ℚ) :=
  ewmGo (2 / ((span : ℚ) + 1)) xs 0 0

/-- `delta.where(delta > 0, 0)`: a null delta compares false, so it is
replaced by `0` as well. -/
def toGain (d : Option ℚ) : ℚ :=
  match d with
  | some d => if 0 < d then d else 0
  | none => 0

/-- `(-delta.where(delta < 0, 0))`. -/
def toLoss (d : Option ℚ) : ℚ :=
  match d with
  | some d => if d < 0 then -d else 0
  | none => 0

/-- `100 - 100/(1+rs)` where `rs = gain/loss`, with the float semantics of
`_calculate_rsi`: `loss = 0` with a positive gain gives `rs = inf` hence
`RSI = 100`; `0/0` gives `NaN`. -/
def rsiVal (g lo : ℚ) : Option ℚ :=
  if lo = 0 then (if g = 0 then none else some 100)
  else some (100 - 100 / (1 + g / lo))

/-- The `RSI` column of `DataProcessor._calculate_rsi` at position `i`. -/
def rsiAt (closes : List (Option ℚ)) (i : ℕ) : Option ℚ :=
  let deltas := (List.range closes.length).map (diffAt closes)
  let gains := deltas.map toGain
  let losses := deltas.map toLoss
  match rollingMeanQ 14 gains i, rollingMeanQ 14 losses i with
  | some g, some lo => rsiVal g lo
  | _, _ => none

/-- The indicator record of row `i`, computed column-wise from the whole
frame exactly as `_add_technical_indicators` does. -/
def indRecordAt (sq : ℚ → ℚ) (l : List Row) (i : ℕ) : IndRow :=
  let closes := l.map (fun r => r.close)
  let vols := l.map (fun r => r.volume)
  let e12 := ewmCol 12 closes
  let e26 := ewmCol 26 closes
  let macdC := List.zipWith optSub e12 e26
  let pcp := pctCol closes
  { sma5 := rollingMean 5 closes i
    sma10 := rollingMean 10 closes i
    sma20 := rollingMean 20 closes i
    ema12 := e12.getD i none
    ema26 := e26.getD i none
    macd := macdC.getD i none
    macdSignal := (ewmCol 9 macdC).getD i none
    rsi := rsiAt closes i
    bbMiddle := rollingMean 20 closes i
    bbUpper := optAdd (rollingMean 20 closes i) (optScale 2 (rollingStd sq 20 closes i))
    bbLower := optSub (rollingMean 20 closes i) (optScale 2 (rollingStd sq 20 closes i))
    priceChange := diffAt closes i
    priceChangePct := pcp.getD i none
    volumeSMA := rollingMean 10 vols i
    volumeRatio := optDiv (vols.getD i none) (rollingMean 10 vols i)
    volatility := rollingStd sq 20 pcp i }

/-- `DataProcessor._add_technical_indicators`: attach the indicator
columns; index and core columns are untouched. -/
def add_technical_indicators (sq : ℚ → ℚ) (l : List Row) : List Row :=
  (List.range l.length).map (fun i => { l.getD i dRow with inds := some (indRecordAt sq l i) })

/-- Forward fill of one price column (`fillna(method='ffill')`): a null
cell takes the previous non-null value of the same column; leading nulls
stay null. -/
def ffillGo (get : Row → Option ℚ) (set : Row → Option ℚ → Row) :
    Option ℚ → List Row → List Row
  | _, [] => []
  | carry, r :: t =>
    match get r with
    | some v => r :: ffillGo get set (some v) t
    | none => set r carry :: ffillGo get set carry t

/-- Rolling 5-day median (`min_periods=1`) of the volume column at
position `i`, over the non-null cells of the window. -/
def rollingMedian5 (vs : List (Option ℚ)) (i : ℕ) : Option ℚ :=
  median ((rollWindow 5 vs i).filterMap id)

/-- Is a row free of nulls in every column the frame carries?  Used by
`dropna()`: the indicator columns take part only once attached. -/
def rowComplete (r : Row) : Bool :=
  r.open_.isSome && r.high.isSome && r.low.isSome && r.close.isSome && r.volume.isSome &&
    (match r.inds with
     | none => true
     | some ir =>
       ir.sma5.isSome && ir.sma10.isSome && ir.sma20.isSome && ir.ema12.isSome &&
         ir.ema26.isSome && ir.macd.isSome && ir.macdSignal.isSome && ir.rsi.isSome &&
         ir.bbMiddle.isSome && ir.bbUpper.isSome && ir.bbLower.isSome &&
         ir.priceChange.isSome && ir.priceChangePct.isSome && ir.volumeSMA.isSome &&
         ir.volumeRatio.isSome && ir.volatility.isSome)

/-- The `for col in price_columns` forward-fill loop of
`_handle_missing_values`, over the four price columns present. -/
def ffillPrices (l : List Row) : List Row :=
  ffillGo (fun r => r.close) (fun r v => { r with close := v }) none
    (ffillGo (fun r => r.low) (fun r v => { r with low := v }) none
      (ffillGo (fun r => r.high) (fun r v => { r with high := v }) none
        (ffillGo (fun r => r.open_) (fun r v => { r with open_ := v }) none l)))

/-- First volume fill of `_handle_missing_values`: a null cell takes the
5-day rolling median at its position. -/
def volCol1 (vs : List (Option ℚ)) : List (Option ℚ) :=
  (List.range vs.length).map (fun i =>
    match vs.getD i none with
    | some v => some v
    | none => rollingMedian5 vs i)

/-- Second volume fill: a cell still null takes the overall median of the
once-filled column. -/
def volCol2 (vs : List (Option ℚ)) : List (Option ℚ) :=
  (volCol1 vs).map (fun o =>
    match o with
    | some v => some v
    | none => median ((volCol1 vs).filterMap id))

/-- The volume block of `_handle_missing_values`: fill null volume cells
from the 5-day rolling median, then any cell still null from the overall
median of the once-filled column. -/
def fillVolume (l : List Row) : List Row :=
  List.zipWith (fun r v => { r with volume := v }) l (volCol2 (l.map (fun r => r.volume)))

/-- `DataProcessor._handle_missing_values`: forward-fill the four price
columns, fill null volume from the 5-day rolling median then from the
overall median of the column, finally `dropna()`. -/
def handle_missing_values (l : List Row) : List Row :=
  (fillVolume (ffillPrices l)).filter rowComplete

/-- `data['High'] < data['Low']` on a row (a null compares false). -/
def badHL (r : Row) : Bool :=
  match r.high, r.low with
  | some hv, some lv => decide (hv < lv)
  | _, _ => false

/-- `data[col] <= 0` on a row (a null compares false). -/
def badNonPos (get : Row → Option ℚ) (r : Row) : Bool :=
  match get r with
  | some p => decide (p ≤ 0)
  | none => false

/-- `data['Volume'].quantile(0.99) * 10` of a frame. -/
def volThreshold (l : List Row) : Option ℚ :=
  (quantile99 (l.filterMap (fun r => r.volume))).map (fun q => q * 10)

/-- `data['Volume'] > volume_threshold` on a row. -/
def badVolume (thr : Option ℚ) (r : Row) : Bool :=
  match thr, r.volume with
  | some t, some v => decide (t < v)
  | _, _ => false

/-- `data[~data.index.duplicated(keep='last')]`: keep a row iff its date
does not occur again later in the frame. -/
def dedupKeepLast : List Row → List Row
  | [] => []
  | r :: t => if t.any (fun y => y.date == r.date) then dedupKeepLast t else r :: dedupKeepLast t

/-- The `High < Low` filter of `_validate_data_integrity`. -/
def dropHL (l : List Row) : List Row :=
  l.filter (fun r => !badHL r)

/-- The `for col in price_columns` filter loop on non-positive prices. -/
def dropNonPos (l : List Row) : List Row :=
  ((((l.filter (fun r => !badNonPos (fun r => r.open_) r)).filter
      (fun r => !badNonPos (fun r => r.high) r)).filter
      (fun r => !badNonPos (fun r => r.low) r)).filter
      (fun r => !badNonPos (fun r => r.close) r))

/-- The extreme-volume filter: the threshold is computed from the frame
as it stands at that point of `_validate_data_integrity`. -/
def dropExtremeVolume (l : List Row) : List Row :=
  l.filter (fun r => !badVolume (volThreshold l) r)

/-- `DataProcessor._validate_data_integrity`: drop rows with
`High < Low`, then rows with a non-positive price (column by column, as
the Python loop does), then rows whose volume exceeds ten times the
99th-percentile volume of the frame at that point, and finally keep only
the last occurrence of every duplicated date. -/
def validate_data_integrity (l : List Row) : List Row :=
  dedupKeepLast (dropExtremeVolume (dropNonPos (dropHL l)))

/-- The sort key of `sort_index` on the bar frame: the date index. -/
def rowDateLe (a b : Row) : Prop := a.date ≤ b.date

instance : DecidableRel rowDateLe := fun a b => by
  unfold rowDateLe; exact inferInstance

instance : IsTotal Row rowDateLe :=
  ⟨fun a b => Int.le_total a.date b.date⟩

instance : IsTrans Row rowDateLe :=
  ⟨fun _ _ _ hab hbc => le_trans hab hbc⟩

/-- `DataFrame.sort_index()` on the bar frame.  pandas first takes its
monotonic fast path: a frame whose index is already non-decreasing is
returned unchanged, duplicates included.  Otherwise it sorts with the
default `kind='quicksort'`, which is not stable: the relative order of
rows sharing a date is unspecified.  The `else` branch below therefore
fixes one arbitrary date-sorted permutation as a representative; no
theorem in this file depends on which representative it is — every
property proved about a sorted-but-not-monotonic input uses only that the
result is a date-sorted permutation of the input. -/
def sortByDate (l : List Row) : List Row :=
  if List.Pairwise rowDateLe l then l
  else List.insertionSort rowDateLe l

/-- `DataProcessor.process_historical_data` (happy path): on a non-empty
frame, sort by date, handle missing values, attach technical indicators,
and repair integrity.  The `sq` parameter abstracts `numpy.sqrt`. -/
def process_historical_data (sq : ℚ → ℚ) (l : List Row) : List Row :=
  if l.isEmpty then l
  else validate_data_integrity (add_technical_indicators sq (handle_missing_values (sortByDate l)))

/-- Stand-in instantiation for the abstract square root when the pipeline
is run on concrete inputs; every concrete fact proved below holds for an
arbitrary instantiation. -/
def qid : ℚ → ℚ := fun q => q

/-- Number of distinct dates of a frame. -/
def countDistinctDates (l : List Row) : ℕ :=
  ((l.map (fun r => r.date)).dedup).length

/-- Python exceptions (opaque for our purposes). -/
inductive PyErr
  | runtime

/-- Model of a Python expression that raises when the fault flag is set. -/
def raiseIf (b : Bool) (a : α) : Except PyErr α :=
  if b then .error .runtime else .ok a

/-- Model of `try: ... except: return d`. -/
def catchD (x : Except PyErr α) (d : α) : α :=
  match x with
  | .ok a => a
  | .error _ => d

/-- Fault flags: which internal steps of `process_historical_data` raise
(`sortFails` stands for the date-coercion/sort code, which has no
`try/except` of its own inside the method body). -/
structure Faults where
  sortFails : Bool
  missFails : Bool
  indFails : Bool
  integFails : Bool

/-- `_handle_missing_values` with its own `try/except` returning its
input on an internal failure. -/
def handle_missing_valuesF (b : Bool) (l : List Row) : List Row :=
  catchD (raiseIf b (handle_missing_values l)) l

/-- `_add_technical_indicators` with its own `try/except`. -/
def add_technical_indicatorsF (b : Bool) (sq : ℚ → ℚ) (l : List Row) : List Row :=
  catchD (raiseIf b (add_technical_indicators sq l)) l

/-- `_validate_data_integrity` with its own `try/except`. -/
def validate_data_integrityF (b : Bool) (l : List Row) : List Row :=
  catchD (raiseIf b (validate_data_integrity l)) l

/-- The body of the top-level `try` of `process_historical_data`: the
empty check, the sort (which may raise out of the body), and the three
self-catching helper steps. -/
def processBody (fl : Faults) (sq : ℚ → ℚ) (l : List Row) : Except PyErr (List Row) :=
  if l.isEmpty then .ok l
  else
    match raiseIf fl.sortFails (sortByDate l) with
    | .error e => .error e
    | .ok s =>
      .ok (validate_data_integrityF fl.integFails
        (add_technical_indicatorsF fl.indFails sq (handle_missing_valuesF fl.missFails s)))

/-- `process_historical_data` as seen by its caller: the top-level
`except` returns the original input, so the caller never observes an
exception. -/
def process_historical_dataE (fl : Faults) (sq : ℚ → ℚ) (l : List Row) :
    Except PyErr (List Row) :=
  match processBody fl sq l with
  | .ok y => .ok y
  | .error _ => .ok l

/-- A scaled feature vector over the five model features
`['Open', 'High', 'Low', 'Close', 'Volume']`. -/
structure FeatVec where
  open_ : ℚ
  high : ℚ
  low : ℚ
  close : ℚ
  volume : ℚ
deriving DecidableEq

/-- Default feature vector (used only for positional access). -/
def dFeat : FeatVec := ⟨0, 0, 0, 0, 0⟩

/-- `current_sequence[-1]`: the last row of a window. -/
def lastRowD (w : List FeatVec) : FeatVec := w.getLastD dFeat

/-- The trained network is opaque: any function from a window of scaled
feature vectors to a scaled predicted Close. -/
def Model : Type := List FeatVec → ℚ

/-- `sklearn.MinMaxScaler(feature_range=(0,1))` state: per-feature data
minimum and maximum. -/
structure Scaler where
  mn : FeatVec
  mx : FeatVec

/-- One feature of `MinMaxScaler.transform`; a degenerate feature range is
scaled by 1, as sklearn's `_handle_zeros_in_scale` does. -/
def scale (m M x : ℚ) : ℚ :=
  if M = m then x - m else (x - m) / (M - m)

/-- One feature of `MinMaxScaler.inverse_transform`. -/
def unscale (m M z : ℚ) : ℚ :=
  if M = m then z + m else z * (M - m) + m

/-- `scaler.transform` on one row. -/
def transform (s : Scaler) (r : FeatVec) : FeatVec :=
  { open_ := scale s.mn.open_ s.mx.open_ r.open_
    high := scale s.mn.high s.mx.high r.high
    low := scale s.mn.low s.mx.low r.low
    close := scale s.mn.close s.mx.close r.close
    volume := scale s.mn.volume s.mx.volume r.volume }

/-- `scaler.inverse_transform` on one row. -/
def inverseTransform (s : Scaler) (r : FeatVec) : FeatVec :=
  { open_ := unscale s.mn.open_ s.mx.open_ r.open_
    high := unscale s.mn.high s.mx.high r.high
    low := unscale s.mn.low s.mx.low r.low
    close := unscale s.mn.close s.mx.close r.close
    volume := unscale s.mn.volume s.mx.volume r.volume }

/-- `MinMaxScaler.fit` on a feature table: per-feature data minimum and
maximum. -/
def fitScaler (data : List FeatVec) : Scaler :=
  match data with
  | [] => ⟨dFeat, dFeat⟩
  | d :: ds =>
    { mn := ds.foldl (fun a r =>
        ⟨min a.open_ r.open_, min a.high r.high, min a.low r.low,
         min a.close r.close, min a.volume r.volume⟩) d
      mx := ds.foldl (fun a r =>
        ⟨max a.open_ r.open_, max a.high r.high, max a.low r.low,
         max a.close r.close, max a.volume r.volume⟩) d }

/-- The training sequences of `_prepare_data`: for `i` in
`[60, len)`, the window `scaled[i-60:i]`. -/
def seqWindows (scaled : List FeatVec) : List (List FeatVec) :=
  (List.range (scaled.length - 60)).map (fun k => (scaled.drop k).take 60)

/-- The training targets of `_prepare_data`: the scaled Close at each
position `i` in `[60, len)`. -/
def seqTargets (scaled : List FeatVec) : List ℚ :=
  (List.range (scaled.length - 60)).map (fun k => (scaled.getD (k + 60) dFeat).close)

/-- The model metadata dictionary saved by `train_model`. -/
structure Info where
  trainLoss : ℚ
  valLoss : ℚ
  trainingSamples : ℕ
  validationSamples : ℕ
  epochsTrained : ℕ
  lastTrained : ℤ
  dataPointsUsed : ℕ

/-- The outcome of `model.fit`/`model.evaluate`, abstract: the trained
network, the reported losses, the epoch count and the current time. -/
structure FitOracle where
  net : Model
  trainLoss : ℚ
  valLoss : ℚ
  epochs : ℕ
  now : ℤ

/-- Fault flags for the three artifact writes of `_save_model`
(`model.save`, the scaler pickle, the info pickle): `true` means that
write raises. -/
structure SaveFaults where
  m : Bool
  s : Bool
  i : Bool

/-- The on-disk model directory: the three artifact files per ticker. -/
structure Disk where
  modelFile : List (String × Model)
  scalerFile : List (String × Scaler)
  infoFile : List (String × Info)

/-- The `StockPredictor` state: the in-memory registries `self.models`,
`self.scalers`, `self.model_info`, and the model directory. -/
structure PState where
  models : List (String × Model)
  scalers : List (String × Scaler)
  modelInfo : List (String × Info)
  disk : Disk

/-- `str.upper()` restricted to the character-wise core (ASCII tickers). -/
def strUpper (s : String) : String := ⟨s.data.map Char.toUpper⟩

/-- `StockPredictor._save_model`: write the three artifacts in order
(an exception aborts the remaining writes), then update
`self.model_info`; the caller's `try/except` swallows any failure, so the
state after a fault keeps exactly the writes that happened before it. -/
def save_model (sf : SaveFaults) (st : PState) (t : String) (net : Model)
    (scaler : Scaler) (info : Info) : PState :=
  if sf.m then st
  else
    let st1 := { st with disk := { st.disk with modelFile := (t, net) :: st.disk.modelFile } }
    if sf.s then st1
    else
      let st2 := { st1 with
        disk := { st1.disk with scalerFile := (t, scaler) :: st1.disk.scalerFile } }
      if sf.i then st2
      else
        let st3 := { st2 with
          disk := { st2.disk with infoFile := (t, info) :: st2.disk.infoFile } }
        { st3 with modelInfo := (t, info) :: st3.modelInfo }

/-- `StockPredictor.train_model`: uppercase the ticker, require at least
`sequence_length + 30 = 90` bars, build sequences, split 80/20, fit
(via the oracle), save (faults swallowed), update the in-memory
registries, and report success. -/
def train_model (fo : FitOracle) (sf : SaveFaults) (st : PState) (ticker : String)
    (data : List FeatVec) : Bool × PState :=
  let t := strUpper ticker
  if data.length < 60 + 30 then (false, st)
  else
    let scaler := fitScaler data
    let scaled := data.map (transform scaler)
    let X := seqWindows scaled
    let _y := seqTargets scaled
    if X.length = 0 then (false, st)
    else
      let splitIdx := (8 * X.length) / 10
      let info : Info :=
        { trainLoss := fo.trainLoss
          valLoss := fo.valLoss
          trainingSamples := splitIdx
          validationSamples := X.length - splitIdx
          epochsTrained := fo.epochs
          lastTrained := fo.now
          dataPointsUsed := data.length }
      let st1 := save_model sf st t fo.net scaler info
      let st2 := { st1 with
        models := (t, fo.net) :: st1.models
        scalers := (t, scaler) :: st1.scalers }
      (true, st2)

/-- One emitted prediction dictionary of `StockPredictor.predict`. -/
structure Prediction where
  price : ℚ
  confidence : ℚ
  confidenceUpper : ℚ
  confidenceLower : ℚ
  day : ℕ
deriving DecidableEq

/-- Default prediction (used only for positional access). -/
def dPrediction : Prediction := ⟨0, 0, 0, 0, 0⟩

/-- The autoregressive loop of `StockPredictor.predict`: at 0-based step
`d`, predict a scaled Close from the current window, rebuild a full
feature vector from the window's last row with only the Close slot
replaced, invert it, attach the heuristic confidence figures, and slide
the window by one, appending the rebuilt vector.  Returns the rebuilt
(scaled) vector together with the emitted prediction, per step. -/
def predictLoopAux (model : Model) (scaler : Scaler) :
    ℕ → ℕ → List FeatVec → List (FeatVec × Prediction)
  | _, 0, _ => []
  | d, rem + 1, w =>
    let predScaled := model w
    let lastF := lastRowD w
    let newF := { lastF with close := predScaled }
    let predActual := (inverseTransform scaler newF).close
    let confidence := max 0.5 (1.0 - (d : ℚ) * 0.02)
    let confidenceRange := predActual * 0.05 * (1 + (d : ℚ) * 0.1)
    let p : Prediction :=
      { price := predActual
        confidence := confidence
        confidenceUpper := predActual + confidenceRange
        confidenceLower := max 0 (predActual - confidenceRange)
        day := d + 1 }
    (newF, p) :: predictLoopAux model scaler (d + 1) rem (w.drop 1 ++ [newF])

/-- The forecast part of `predict` once a model and scaler are at hand:
scale the full history, seed with the last 60 rows (the reshape to
`(1, 60, 5)` raises — hence the empty result — unless exactly 60 rows
are available), and run the loop.  A missing scaler raises a `KeyError`
which the surrounding `except` turns into an empty result. -/
def runForecast (st : PState) (t : String) (data : List FeatVec) (days : ℕ) :
    List Prediction × PState :=
  match List.lookup t st.models, List.lookup t st.scalers with
  | some model, some scaler =>
    let scaled := data.map (transform scaler)
    let w := scaled.drop (scaled.length - 60)
    if w.length = 60 then ((predictLoopAux model scaler 0 days w).map Prod.snd, st)
    else ([], st)
  | _, _ => ([], st)

/-- `StockPredictor.predict`: train first when the ticker has no
in-memory model; a training failure makes the whole call return no
predictions. -/
def predict (fo : FitOracle) (sf : SaveFaults) (st : PState) (ticker : String)
    (data : List FeatVec) (days : ℕ) : List Prediction × PState :=
  let t := strUpper ticker
  match List.lookup t st.models with
  | none =>
    let res := train_model fo sf st ticker data
    if res.1 then runForecast res.2 t data days else ([], res.2)
  | some _ => runForecast st t data days

/-- A formatted forecast point of the API handler
(`main.py, get_stock_prediction`). -/
structure FPoint where
  date : ℤ
  predictedPrice : ℚ
  confidenceUpper : ℚ
  confidenceLower : ℚ
  confidenceScore : ℚ

/-- Python's banker's rounding (`round`) to an integer. -/
def roundHalfEven (q : ℚ) : ℤ :=
  let f := ⌊q⌋
  let r := q - (f : ℚ)
  if r < 1 / 2 then f
  else if 1 / 2 < r then f + 1
  else if f % 2 = 0 then f else f + 1

/-- `round(x, 2)`. -/
def round2 (q : ℚ) : ℚ := ((roundHalfEven (q * 100) : ℚ)) / 100

/-- `round(x, 3)`. -/
def round3 (q : ℚ) : ℚ := ((roundHalfEven (q * 1000) : ℚ)) / 1000

/-- The formatting loop of `get_stock_prediction`: the `i`-th prediction
(0-based) is dated `base_date + (i+1)` days and its figures are rounded. -/
def formatPredictions (today : ℤ) (preds : List Prediction) : List FPoint :=
  preds.enum.map (fun p =>
    { date := today + (p.1 : ℤ) + 1
      predictedPrice := round2 p.2.price
      confidenceUpper := round2 p.2.confidenceUpper
      confidenceLower := round2 p.2.confidenceLower
      confidenceScore := round3 p.2.confidence })

/-- Row-level validity against a volume threshold: the five core cells
present, `Low <= High`, positive prices, volume within the threshold, and
no indicator columns attached (a raw frame). -/
def rowValidB (thr : Option ℚ) (r : Row) : Bool :=
  r.open_.isSome && r.high.isSome && r.low.isSome && r.close.isSome && r.volume.isSome &&
    r.inds.isNone && decide (r.low.getD 0 ≤ r.high.getD 0) &&
    decide (0 < r.open_.getD 0) && decide (0 < r.high.getD 0) &&
    decide (0 < r.low.getD 0) && decide (0 < r.close.getD 0) &&
    (match thr with | some t => decide (r.volume.getD 0 ≤ t) | none => true)

/-- Frame-level validity: every row valid against ten times the frame's
own 99th-percentile volume — exactly the rows that no cleaning or
integrity-repair step can drop. -/
def validFrameB (x : List Row) : Bool := x.all (rowValidB (volThreshold x))

/-- Two rows agree on the index and the five core columns. -/
def baseMatch (a b : Row) : Prop :=
  a.date = b.date ∧ a.open_ = b.open_ ∧ a.high = b.high ∧ a.low = b.low ∧
    a.close = b.close ∧ a.volume = b.volume

/-! ## Concrete instances used to check the theorems on closed inputs -/

/-- A bar row with the given index and cells, no nulls, no indicators. -/
def mkRow (d : ℤ) (o h l c v : ℚ) : Row := ⟨d, some o, some h, some l, some c, some v, none⟩

/-- One row whose `High` (1) is below its `Low` (2): integrity repair
drops it. -/
def xBad : List Row := [mkRow 0 1 1 2 1 1]

/-- Three valid rows, the first two sharing date 0. -/
def xDup : List Row := [mkRow 0 1 2 1 1 1, mkRow 0 3 4 2 3 1, mkRow 1 1 2 1 1 1]

/-- Two valid rows on strictly ascending dates: an already-clean frame. -/
def xClean : List Row := [mkRow 0 1 2 1 1 1, mkRow 1 1 2 1 1 1]

/-- A constant scaled feature row. -/
def oneVec : FeatVec := ⟨1, 1, 1, 1, 1⟩

/-- A network that always predicts scaled Close 1. -/
def modelOne : Model := fun _ => 1

/-- A network that predicts half of the window's last scaled Close, so
the predicted prices fall from step to step. -/
def modelHalf : Model := fun w => (lastRowD w).close * 0.5

/-- A scaler whose fitted range is `[0, 1]` on every feature. -/
def scalerUnit : Scaler := ⟨⟨0, 0, 0, 0, 0⟩, ⟨1, 1, 1, 1, 1⟩⟩

/-- Sixty identical bars: exactly one seed window. -/
def dataC : List FeatVec := List.replicate 60 oneVec

/-- Ninety identical bars: the training minimum. -/
def data90 : List FeatVec := List.replicate 90 oneVec

def diskEmpty : Disk := ⟨[], [], []⟩

/-- A fit oracle returning `modelOne`. -/
def foC : FitOracle := ⟨modelOne, 0, 0, 1, 0⟩

/-- No save faults. -/
def sfC : SaveFaults := ⟨false, false, false⟩

/-- The very first artifact write (`model.save`) raises. -/
def sfFail : SaveFaults := ⟨true, false, false⟩

/-- A state with `modelOne` and `scalerUnit` registered for ticker A. -/
def stC : PState := ⟨[("A", modelOne)], [("A", scalerUnit)], [], diskEmpty⟩

/-- A state with the falling-price network registered for ticker A. -/
def stDec : PState := ⟨[("A", modelHalf)], [("A", scalerUnit)], [], diskEmpty⟩

/-- The empty predictor state. -/
def stEmpty : PState := ⟨[], [], [], diskEmpty⟩

/-- A one-row window for exercising the forecast loop directly. -/
def wC3 : List FeatVec := [⟨1, 2, 3, 4, 5⟩]

/-- A constant network used with `wC3`. -/
def modelC3 : Model := fun _ => 9

/-- The first step of the forecast loop on `wC3`. -/
def stepC3 : FeatVec × Prediction :=
  (predictLoopAux modelC3 scalerUnit 0 1 wC3).getD 0 (⟨0, 0, 0, 0, 0⟩, ⟨0, 0, 0, 0, 0⟩)

/-! ## Generic list helpers -/

theorem getD_mem_of_lt (l : List α) (d : α) {i : ℕ} (h : i < l.length) : l.getD i d ∈ l := by
  rw [List.getD_eq_get?, List.get?_eq_get h]
  exact List.get_mem l i h

theorem range_map_getD (l : List α) (d : α) (f : α → β) :
    (List.range l.length).map (fun i => f (l.getD i d)) = l.map f := by
  induction l with
  | nil => rfl
  | cons a t ih =>
    rw [List.length_cons, List.range_succ_eq_map, List.map_cons, List.map_map, List.map_cons]
    refine congrArg₂ _ rfl ?_
    refine Eq.trans (List.map_congr_left ?_) ih
    intro i _
    simp [List.getD_cons_succ]

/-! ## Lemmas about the forecast loop -/

theorem predictLoopAux_length (model : Model) (scaler : Scaler) :
    ∀ (n d : ℕ) (w : List FeatVec), (predictLoopAux model scaler d n w).length = n := by
  intro n
  induction n with
  | zero => intro d w; rfl
  | succ m ih => intro d w; rw [predictLoopAux]; simpa using ih (d + 1) _

theorem predictLoopAux_get? (model : Model) (scaler : Scaler) :
    ∀ (n i d : ℕ) (w : List FeatVec), i < n →
    ∃ v p, (predictLoopAux model scaler d n w).get? i = some (v, p) ∧
      p.day = d + i + 1 ∧
      p.confidence = max 0.5 (1.0 - ((d + i : ℕ) : ℚ) * 0.02) ∧
      p.confidenceUpper = p.price + p.price * 0.05 * (1 + ((d + i : ℕ) : ℚ) * 0.1) ∧
      p.confidenceLower = max 0 (p.price - p.price * 0.05 * (1 + ((d + i : ℕ) : ℚ) * 0.1)) := by
  intro n
  induction n with
  | zero => intro i d w h; exact absurd h (Nat.not_lt_zero i)
  | succ m ih =>
    intro i d w _h
    cases i with
    | zero =>
      refine ⟨_, _, rfl, rfl, rfl, rfl, rfl⟩
    | succ j =>
      have hj : j < m := by omega
      obtain ⟨v, p, hp, hday, hconf, hup, hlo⟩ := ih j (d + 1) _ hj
      refine ⟨v, p, ?_, ?_, ?_, ?_, ?_⟩
      · rw [predictLoopAux]; simpa using hp
      · omega
      · rw [hconf]; congr 2; push_cast; ring
      · rw [hup]; congr 2; push_cast; ring
      · rw [hlo]; congr 2; push_cast; ring

/-- Claim C3 (the loop invariant behind it): every reconstructed feature
vector of a forecast run keeps the Open, High, Low and Volume slots of the
last row of the seed window; only Close is replaced. -/
theorem claim_C3_thm (model : Model) (scaler : Scaler) :
    ∀ (n d : ℕ) (w : List FeatVec) (e : FeatVec × Prediction),
    e ∈ predictLoopAux model scaler d n w →
    e.1.open_ = (lastRowD w).open_ ∧ e.1.high = (lastRowD w).high ∧
      e.1.low = (lastRowD w).low ∧ e.1.volume = (lastRowD w).volume := by
  intro n
  induction n with
  | zero => intro d w e h; simp [predictLoopAux] at h
  | succ m ih =>
    intro d w e h
    rw [predictLoopAux] at h
    rcases List.mem_cons.mp h with he | ht
    · subst he; exact ⟨rfl, rfl, rfl, rfl⟩
    · have := ih (d + 1) _ e ht
      rwa [lastRowD, List.getLastD_concat] at this

/-! ## Unfolding lemmas for `predict` and `train_model` -/

theorem predict_model_present (fo : FitOracle) (sf : SaveFaults) (st : PState)
    (ticker : String) (data : List FeatVec) (days : ℕ) (model : Model) (scaler : Scaler)
    (hm : List.lookup (strUpper ticker) st.models = some model)
    (hs : List.lookup (strUpper ticker) st.scalers = some scaler)
    (hlen : 60 ≤ data.length) :
    predict fo sf st ticker data days =
      ((predictLoopAux model scaler 0 days
        ((data.map (transform scaler)).drop (data.length - 60))).map Prod.snd, st) := by
  unfold predict runForecast
  simp only [hm, hs]
  rw [if_pos]
  · simp [List.length_map]
  · simp only [List.length_drop, List.length_map]
    omega

theorem train_model_insufficient (fo : FitOracle) (sf : SaveFaults) (st : PState)
    (ticker : String) (data : List FeatVec) (h : data.length < 90) :
    train_model fo sf st ticker data = (false, st) := by
  unfold train_model
  rw [if_pos (by omega)]

theorem seqWindows_length (scaled : List FeatVec) :
    (seqWindows scaled).length = scaled.length - 60 := by
  simp [seqWindows]

theorem train_model_sufficient (fo : FitOracle) (sf : SaveFaults) (st : PState)
    (ticker : String) (data : List FeatVec) (h : 90 ≤ data.length) :
    train_model fo sf st ticker data =
      (true,
        { save_model sf st (strUpper ticker) fo.net (fitScaler data)
            { trainLoss := fo.trainLoss
              valLoss := fo.valLoss
              trainingSamples := 8 * (data.length - 60) / 10
              validationSamples := (data.length - 60) - 8 * (data.length - 60) / 10
              epochsTrained := fo.epochs
              lastTrained := fo.now
              dataPointsUsed := data.length } with
          models := (strUpper ticker, fo.net) ::
            (save_model sf st (strUpper ticker) fo.net (fitScaler data)
              { trainLoss := fo.trainLoss
                valLoss := fo.valLoss
                trainingSamples := 8 * (data.length - 60) / 10
                validationSamples := (data.length - 60) - 8 * (data.length - 60) / 10
                epochsTrained := fo.epochs
                lastTrained := fo.now
                dataPointsUsed := data.length }).models
          scalers := (strUpper ticker, fitScaler data) ::
            (save_model sf st (strUpper ticker) fo.net (fitScaler data)
              { trainLoss := fo.trainLoss
                valLoss := fo.valLoss
                trainingSamples := 8 * (data.length - 60) / 10
                validationSamples := (data.length - 60) - 8 * (data.length - 60) / 10
                epochsTrained := fo.epochs
                lastTrained := fo.now
                dataPointsUsed := data.length }).scalers }) := by
  have hX : (seqWindows (data.map (transform (fitScaler data)))).length = data.length - 60 := by
    rw [seqWindows_length, List.length_map]
  unfold train_model
  rw [if_neg (by omega)]
  simp only [hX]
  rw [if_neg (by omega)]

/-- Claim C1 (amended): when a model and scaler are registered for the
ticker and at least `W = 60` rows are supplied, the `i`-th emitted point
(0-based `i`, so 1-based day `i + 1`) carries
`confidenceScore = max(0.5, 1.0 - i*0.02)`,
`band = predictedPrice * 0.05 * (1 + i*0.1)`,
`confidenceUpper = predictedPrice + band` and
`confidenceLower = max(0, predictedPrice - band)`: the decay multiplies
the 0-based loop index, not the 1-based day number. -/
theorem claim_C1_thm (fo : FitOracle) (sf : SaveFaults) (st : PState)
    (ticker : String) (data : List FeatVec) (days : ℕ) (model : Model) (scaler : Scaler)
    (i : ℕ)
    (hm : List.lookup (strUpper ticker) st.models = some model)
    (hs : List.lookup (strUpper ticker) st.scalers = some scaler)
    (hlen : 60 ≤ data.length) (hi : i < days) :
    ∃ p, (predict fo sf st ticker data days).1.get? i = some p ∧
      p.day = i + 1 ∧
      p.confidence = max 0.5 (1.0 - (i : ℚ) * 0.02) ∧
      p.confidenceUpper = p.price + p.price * 0.05 * (1 + (i : ℚ) * 0.1) ∧
      p.confidenceLower = max 0 (p.price - p.price * 0.05 * (1 + (i : ℚ) * 0.1)) := by
  rw [predict_model_present fo sf st ticker data days model scaler hm hs hlen]
  obtain ⟨v, p, hp, hday, hconf, hup, hlo⟩ :=
    predictLoopAux_get? model scaler days i 0
      ((data.map (transform scaler)).drop (data.length - 60)) hi
  refine ⟨p, ?_, ?_, ?_, ?_, ?_⟩
  · rw [List.get?_map, hp]; rfl
  · simpa using hday
  · rw [hconf]; norm_num
  · rw [hup]; norm_num
  · rw [hlo]; norm_num

/-- Claim C2 (amended): when the ticker already has a registered model and
scaler and at least `W = 60` rows are supplied, the formatted forecast has
exactly `days` points and the `i`-th point (0-based) is dated
`today + i + 1`, i.e. dates strictly increase by one day starting
tomorrow.  (Without a usable model, or with fewer than 60 rows, `predict`
instead returns no points at all — see the counterexample.) -/
theorem claim_C2_thm (fo : FitOracle) (sf : SaveFaults) (st : PState)
    (ticker : String) (data : List FeatVec) (days : ℕ) (today : ℤ)
    (model : Model) (scaler : Scaler)
    (hm : List.lookup (strUpper ticker) st.models = some model)
    (hs : List.lookup (strUpper ticker) st.scalers = some scaler)
    (hlen : 60 ≤ data.length) :
    (formatPredictions today (predict fo sf st ticker data days).1).length = days ∧
      ∀ i < days,
        ((formatPredictions today (predict fo sf st ticker data days).1).get? i).map
            (fun q => q.date) = some (today + i + 1) := by
  rw [predict_model_present fo sf st ticker data days model scaler hm hs hlen]
  have hlen2 : ((predictLoopAux model scaler 0 days
      ((data.map (transform scaler)).drop (data.length - 60))).map Prod.snd).length = days := by
    rw [List.length_map, predictLoopAux_length]
  constructor
  · simp [formatPredictions, hlen2]
  · intro i hi
    have hi2 : i < ((predictLoopAux model scaler 0 days
        ((data.map (transform scaler)).drop (data.length - 60))).map Prod.snd).length := by
      rw [hlen2]; exact hi
    rw [formatPredictions, List.get?_map, List.get?_enum, List.get?_eq_get hi2]
    rfl

/-- Claim C4: when no in-memory model exists for the (uppercased) ticker,
`predict` first trains on the provided bars; if training fails (fewer
than 90 bars) the call returns no forecast points and leaves the state
unchanged, and if training succeeds the newly trained network is
registered under the ticker in the returned state. -/
theorem claim_C4_thm (fo : FitOracle) (sf : SaveFaults) (st : PState)
    (ticker : String) (data : List FeatVec) (days : ℕ)
    (hm : List.lookup (strUpper ticker) st.models = none) :
    (data.length < 90 → predict fo sf st ticker data days = ([], st)) ∧
      (90 ≤ data.length →
        List.lookup (strUpper ticker) ((predict fo sf st ticker data days).2).models =
          some fo.net) := by
  constructor
  · intro hlen
    unfold predict
    simp only [hm]
    rw [train_model_insufficient fo sf st ticker data hlen]
    simp
  · intro hlen
    unfold predict
    simp only [hm]
    rw [train_model_sufficient fo sf st ticker data hlen]
    simp only []
    unfold runForecast
    simp only [List.lookup]
    rw [beq_self_eq_true]
    simp only []
    split
    · split
      · simp [List.lookup]
      · simp [List.lookup]
    · simp [List.lookup]

/-- Claim C5: `train_model` reports failure exactly when fewer than
`W + 30 = 90` bars are supplied; with 90 or more bars the history check
passes and training runs to success. -/
theorem claim_C5_thm (fo : FitOracle) (sf : SaveFaults) (st : PState)
    (ticker : String) (data : List FeatVec) :
    (train_model fo sf st ticker data).1 = false ↔ data.length < 90 := by
  constructor
  · intro h
    by_contra hlen
    push_neg at hlen
    rw [train_model_sufficient fo sf st ticker data hlen] at h
    exact Bool.noConfusion h
  · intro h
    rw [train_model_insufficient fo sf st ticker data h]

/-- Claim C10: with enough bars, training reports success and registers
the model and scaler in memory for every save-fault pattern; when the
very first artifact write fails, nothing reaches the model directory, so
a `True` training result does not imply the triple was persisted. -/
theorem claim_C10_thm (fo : FitOracle) (sf : SaveFaults) (st : PState)
    (ticker : String) (data : List FeatVec) (hlen : 90 ≤ data.length) :
    (train_model fo sf st ticker data).1 = true ∧
      List.lookup (strUpper ticker) ((train_model fo sf st ticker data).2).models =
        some fo.net ∧
      List.lookup (strUpper ticker) ((train_model fo sf st ticker data).2).scalers =
        some (fitScaler data) ∧
      (sf.m = true → ((train_model fo sf st ticker data).2).disk = st.disk) := by
  rw [train_model_sufficient fo sf st ticker data hlen]
  refine ⟨rfl, by simp [List.lookup], by simp [List.lookup], ?_⟩
  intro hsf
  unfold save_model
  rw [hsf]
  simp only [if_true]

theorem width_eq_min (a c : ℚ) :
    (a + c) - max 0 (a - c) = min (a + c) (2 * c) := by
  rcases le_total c a with h | h
  · rw [max_eq_right (by linarith), min_eq_right (by linarith)]
    ring
  · rw [max_eq_left (by linarith), min_eq_left (by linarith)]
    ring

/-- Claim C8 (amended): within one forecast run the confidence scores are
non-increasing and bounded below by `0.5`; the band width
(`confidenceUpper - confidenceLower`) is non-decreasing between two steps
whenever the earlier predicted price is nonnegative and no larger than
the later one.  (In general the width scales with the predicted price and
can shrink when the price falls — see the counterexample.) -/
theorem claim_C8_thm (model : Model) (scaler : Scaler) (w : List FeatVec)
    (days i j : ℕ) (p q : Prediction)
    (hij : i ≤ j) (hj : j < days)
    (hp : ((predictLoopAux model scaler 0 days w).map Prod.snd).get? i = some p)
    (hq : ((predictLoopAux model scaler 0 days w).map Prod.snd).get? j = some q) :
    (0.5 ≤ q.confidence ∧ q.confidence ≤ p.confidence) ∧
      (0 ≤ p.price → p.price ≤ q.price →
        p.confidenceUpper - p.confidenceLower ≤ q.confidenceUpper - q.confidenceLower) := by
  obtain ⟨vi, pi, hpi, _, hconfi, hupi, hloi⟩ :=
    predictLoopAux_get? model scaler days i 0 w (lt_of_le_of_lt hij hj)
  obtain ⟨vj, pj, hpj, _, hconfj, hupj, hloj⟩ :=
    predictLoopAux_get? model scaler days j 0 w hj
  have hpi2 : ((predictLoopAux model scaler 0 days w).map Prod.snd).get? i = some pi := by
    rw [List.get?_map, hpi]; rfl
  have hpj2 : ((predictLoopAux model scaler 0 days w).map Prod.snd).get? j = some pj := by
    rw [List.get?_map, hpj]; rfl
  have hpe : p = pi := by rw [hp] at hpi2; exact Option.some_injective _ hpi2
  have hqe : q = pj := by rw [hq] at hpj2; exact Option.some_injective _ hpj2
  subst hpe; subst hqe
  have hcast : ((0 + i : ℕ) : ℚ) ≤ ((0 + j : ℕ) : ℚ) := by
    push_cast; exact_mod_cast by omega
  constructor
  · constructor
    · rw [hconfj]; exact le_max_left _ _
    · rw [hconfi, hconfj]
      refine max_le_max le_rfl ?_
      nlinarith [hcast]
  · intro hp0 hple
    have hq0 : (0:ℚ) ≤ q.price := le_trans hp0 hple
    have h1 : (0:ℚ) ≤ 1 + ((0 + i : ℕ) : ℚ) * 0.1 := by positivity
    have h2 : (0:ℚ) ≤ 1 + ((0 + j : ℕ) : ℚ) * 0.1 := by positivity
    have hbi : (0:ℚ) ≤ p.price * 0.05 * (1 + ((0 + i : ℕ) : ℚ) * 0.1) := by nlinarith
    have hbj : (0:ℚ) ≤ q.price * 0.05 * (1 + ((0 + j : ℕ) : ℚ) * 0.1) := by nlinarith
    rw [hupi, hloi, hupj, hloj, width_eq_min, width_eq_min]
    have hb : p.price * 0.05 * (1 + ((0 + i : ℕ) : ℚ) * 0.1) ≤
        q.price * 0.05 * (1 + ((0 + j : ℕ) : ℚ) * 0.1) := by
      nlinarith [hcast]
    refine min_le_min (by linarith) (by linarith)

/-! ## Date ordering through the cleaning pipeline -/

theorem sortByDate_perm (l : List Row) : (sortByDate l).Perm l := by
  unfold sortByDate
  by_cases h : List.Pairwise rowDateLe l
  · rw [if_pos h]
  · rw [if_neg h]
    exact List.perm_insertionSort rowDateLe l

theorem sortByDate_dates_le (l : List Row) :
    List.Pairwise (· ≤ ·) ((sortByDate l).map (fun r => r.date)) := by
  unfold sortByDate
  by_cases h : List.Pairwise rowDateLe l
  · rw [if_pos h, List.pairwise_map]
    exact h
  · rw [if_neg h, List.pairwise_map]
    exact List.sorted_insertionSort rowDateLe l

/-- On a frame whose index is already non-decreasing, `sort_index` is the
identity: this is pandas' monotonic fast path, and the only regime in
which the program pins down the relative order of duplicate dates. -/
theorem sortByDate_of_sorted (l : List Row) (h : List.Pairwise rowDateLe l) :
    sortByDate l = l := by
  unfold sortByDate
  rw [if_pos h]

theorem ffillGo_map_date (get : Row → Option ℚ) (set : Row → Option ℚ → Row)
    (hset : ∀ r v, (set r v).date = r.date) :
    ∀ (c : Option ℚ) (l : List Row),
      (ffillGo get set c l).map (fun r => r.date) = l.map (fun r => r.date) := by
  intro c l
  induction l generalizing c with
  | nil => rfl
  | cons a t ih =>
    rw [ffillGo]
    cases hga : get a with
    | some v => simp [ih]
    | none => simp [hset, ih]

theorem ffillPrices_map_date (l : List Row) :
    (ffillPrices l).map (fun r => r.date) = l.map (fun r => r.date) := by
  unfold ffillPrices
  rw [ffillGo_map_date (fun r => r.close) (fun r v => { r with close := v }) (fun r v => rfl),
    ffillGo_map_date (fun r => r.low) (fun r v => { r with low := v }) (fun r v => rfl),
    ffillGo_map_date (fun r => r.high) (fun r v => { r with high := v }) (fun r v => rfl),
    ffillGo_map_date (fun r => r.open_) (fun r v => { r with open_ := v }) (fun r v => rfl)]

theorem zipWith_setVolume_map_date :
    ∀ (l : List Row) (v : List (Option ℚ)), l.length ≤ v.length →
      (List.zipWith (fun r vo => { r with volume := vo }) l v).map (fun r => r.date) =
        l.map (fun r => r.date) := by
  intro l
  induction l with
  | nil => intro v _; rfl
  | cons a t ih =>
    intro v h
    cases v with
    | nil => simp at h
    | cons b vt =>
      rw [List.zipWith_cons_cons, List.map_cons, List.map_cons]
      refine congrArg₂ _ rfl (ih vt ?_)
      simpa using h

theorem fillVolume_map_date (l : List Row) :
    (fillVolume l).map (fun r => r.date) = l.map (fun r => r.date) := by
  unfold fillVolume
  refine zipWith_setVolume_map_date l _ ?_
  simp [volCol2, volCol1]

theorem handle_missing_dates_sublist (l : List Row) :
    ((handle_missing_values l).map (fun r => r.date)).Sublist (l.map (fun r => r.date)) := by
  unfold handle_missing_values
  have h1 : (((fillVolume (ffillPrices l)).filter rowComplete).map (fun r => r.date)).Sublist
      ((fillVolume (ffillPrices l)).map (fun r => r.date)) :=
    (List.filter_sublist _).map _
  rwa [fillVolume_map_date, ffillPrices_map_date] at h1

theorem add_technical_indicators_map_date (sq : ℚ → ℚ) (l : List Row) :
    (add_technical_indicators sq l).map (fun r => r.date) = l.map (fun r => r.date) := by
  unfold add_technical_indicators
  rw [List.map_map]
  exact range_map_getD l dRow (fun r => r.date)

theorem dedupKeepLast_sublist : ∀ l : List Row, (dedupKeepLast l).Sublist l := by
  intro l
  induction l with
  | nil => exact List.Sublist.refl []
  | cons a t ih =>
    rw [dedupKeepLast]
    by_cases h : t.any (fun y => y.date == a.date)
    · rw [if_pos h]; exact ih.cons a
    · rw [if_neg h]; exact ih.cons₂ a

theorem dedupKeepLast_mem {l : List Row} {r : Row} (h : r ∈ dedupKeepLast l) : r ∈ l :=
  (dedupKeepLast_sublist l).mem h

theorem dedupKeepLast_dates_lt :
    ∀ l : List Row, List.Pairwise (· ≤ ·) (l.map (fun r => r.date)) →
      List.Pairwise (· < ·) ((dedupKeepLast l).map (fun r => r.date)) := by
  intro l
  induction l with
  | nil => intro _; simp [dedupKeepLast]
  | cons a t ih =>
    intro h
    rw [List.map_cons, List.pairwise_cons] at h
    obtain ⟨hhead, htail⟩ := h
    rw [dedupKeepLast]
    by_cases hdup : t.any (fun y => y.date == a.date)
    · rw [if_pos hdup]; exact ih htail
    · rw [if_neg hdup]
      rw [List.map_cons, List.pairwise_cons]
      refine ⟨?_, ih htail⟩
      intro d hd
      rw [List.mem_map] at hd
      obtain ⟨y, hy, hyd⟩ := hd
      have hym : y ∈ t := dedupKeepLast_mem hy
      have hle : a.date ≤ d := by
        rw [← hyd]
        exact hhead y.date (List.mem_map.mpr ⟨y, hym, rfl⟩)
      have hne : y.date ≠ a.date := by
        intro hcontra
        exact hdup (List.any_eq_true.mpr ⟨y, hym, by simp [hcontra]⟩)
      rw [← hyd]
      exact lt_of_le_of_ne (hyd ▸ hle) (Ne.symm hne)

theorem filter_map_date_sublist (p : Row → Bool) (l : List Row) :
    ((l.filter p).map (fun r => r.date)).Sublist (l.map (fun r => r.date)) :=
  (List.filter_sublist _).map _

theorem validate_dates_lt (l : List Row)
    (h : List.Pairwise (· ≤ ·) (l.map (fun r => r.date))) :
    List.Pairwise (· < ·) ((validate_data_integrity l).map (fun r => r.date)) := by
  unfold validate_data_integrity dropExtremeVolume dropNonPos dropHL
  refine dedupKeepLast_dates_lt _ ?_
  refine List.Pairwise.sublist ?_ h
  refine (filter_map_date_sublist _ _).trans ?_
  refine (filter_map_date_sublist _ _).trans ?_
  refine (filter_map_date_sublist _ _).trans ?_
  refine (filter_map_date_sublist _ _).trans ?_
  refine (filter_map_date_sublist _ _).trans ?_
  exact filter_map_date_sublist _ _

/-! ## Identity of the cleaning steps on already-clean frames -/

theorem rowValidB_spec {thr : Option ℚ} {r : Row} (h : rowValidB thr r = true) :
    (∃ o, r.open_ = some o ∧ 0 < o) ∧ (∃ hv, r.high = some hv ∧ 0 < hv) ∧
      (∃ lv, r.low = some lv ∧ 0 < lv) ∧ (∃ c, r.close = some c ∧ 0 < c) ∧
      (∃ v, r.volume = some v ∧ ∀ t, thr = some t → v ≤ t) ∧ r.inds = none ∧
      (∀ hv lv, r.high = some hv → r.low = some lv → lv ≤ hv) := by
  unfold rowValidB at h
  simp only [Bool.and_eq_true, decide_eq_true_eq] at h
  obtain ⟨⟨⟨⟨⟨⟨⟨⟨⟨⟨⟨ho, hh⟩, hl⟩, hc⟩, hv⟩, hi⟩, hlh⟩, hpo⟩, hph⟩, hpl⟩, hpc⟩, hthr⟩ := h
  obtain ⟨o, ho'⟩ := Option.isSome_iff_exists.mp ho
  obtain ⟨hv0, hh'⟩ := Option.isSome_iff_exists.mp hh
  obtain ⟨lv0, hl'⟩ := Option.isSome_iff_exists.mp hl
  obtain ⟨c, hc'⟩ := Option.isSome_iff_exists.mp hc
  obtain ⟨v, hv'⟩ := Option.isSome_iff_exists.mp hv
  rw [ho'] at hpo
  rw [hh'] at hph hlh
  rw [hl'] at hpl hlh
  rw [hc'] at hpc
  simp only [Option.getD_some] at hpo hph hpl hpc hlh
  refine ⟨⟨o, ho', hpo⟩, ⟨hv0, hh', hph⟩, ⟨lv0, hl', hpl⟩, ⟨c, hc', hpc⟩,
    ⟨v, hv', ?_⟩, Option.isNone_iff_eq_none.mp hi, ?_⟩
  · intro t ht
    rw [ht] at hthr
    rw [hv'] at hthr
    simpa using hthr
  · intro a b ha hb
    rw [hh'] at ha
    rw [hl'] at hb
    obtain rfl : hv0 = a := Option.some_injective _ ha
    obtain rfl : lv0 = b := Option.some_injective _ hb
    exact hlh

theorem ffillGo_id (get : Row → Option ℚ) (set : Row → Option ℚ → Row) :
    ∀ (c : Option ℚ) (l : List Row), (∀ r ∈ l, (get r).isSome) → ffillGo get set c l = l := by
  intro c l
  induction l generalizing c with
  | nil => intro _; rfl
  | cons a t ih =>
    intro h
    obtain ⟨v, hv⟩ := Option.isSome_iff_exists.mp (h a (List.mem_cons_self a t))
    rw [ffillGo, hv]
    exact congrArg _ (ih (some v) (fun r hr => h r (List.mem_cons_of_mem a hr)))

theorem ffillPrices_id (l : List Row)
    (ho : ∀ r ∈ l, r.open_.isSome) (hh : ∀ r ∈ l, r.high.isSome)
    (hl : ∀ r ∈ l, r.low.isSome) (hc : ∀ r ∈ l, r.close.isSome) :
    ffillPrices l = l := by
  unfold ffillPrices
  rw [ffillGo_id _ _ _ l ho, ffillGo_id _ _ _ l hh, ffillGo_id _ _ _ l hl,
    ffillGo_id _ _ _ l hc]

theorem volCol1_id (vs : List (Option ℚ)) (h : ∀ v ∈ vs, v.isSome) : volCol1 vs = vs := by
  unfold volCol1
  have h1 : ∀ i ∈ List.range vs.length,
      (match vs.getD i none with
       | some v => some v
       | none => rollingMedian5 vs i) = (id (vs.getD i none) : Option ℚ) := by
    intro i hi
    rw [List.mem_range] at hi
    obtain ⟨v, hv⟩ := Option.isSome_iff_exists.mp (h _ (getD_mem_of_lt vs none hi))
    rw [hv]
    rfl
  rw [List.map_congr_left h1, range_map_getD vs none id, List.map_id]

theorem volCol2_id (vs : List (Option ℚ)) (h : ∀ v ∈ vs, v.isSome) : volCol2 vs = vs := by
  unfold volCol2
  rw [volCol1_id vs h]
  have h1 : ∀ o ∈ vs,
      (match o with
       | some v => some v
       | none => median (vs.filterMap id)) = (id o : Option ℚ) := by
    intro o ho
    obtain ⟨v, hv⟩ := Option.isSome_iff_exists.mp (h o ho)
    rw [hv]
    rfl
  rw [List.map_congr_left h1, List.map_id]

theorem zip_setVolume_self : ∀ l : List Row,
    List.zipWith (fun r v => { r with volume := v }) l (l.map (fun r => r.volume)) = l := by
  intro l
  induction l with
  | nil => rfl
  | cons a t ih => rw [List.map_cons, List.zipWith_cons_cons, ih]

theorem fillVolume_id (l : List Row) (h : ∀ r ∈ l, r.volume.isSome) : fillVolume l = l := by
  unfold fillVolume
  rw [volCol2_id _ (by
    intro v hv
    rw [List.mem_map] at hv
    obtain ⟨r, hr, rfl⟩ := hv
    exact h r hr)]
  exact zip_setVolume_self l

theorem handle_missing_values_id (l : List Row)
    (h : ∀ r ∈ l, r.open_.isSome ∧ r.high.isSome ∧ r.low.isSome ∧ r.close.isSome ∧
      r.volume.isSome ∧ r.inds = none) :
    handle_missing_values l = l := by
  unfold handle_missing_values
  rw [ffillPrices_id l (fun r hr => (h r hr).1) (fun r hr => (h r hr).2.1)
    (fun r hr => (h r hr).2.2.1) (fun r hr => (h r hr).2.2.2.1),
    fillVolume_id l (fun r hr => (h r hr).2.2.2.2.1)]
  rw [List.filter_eq_self]
  intro r hr
  obtain ⟨h1, h2, h3, h4, h5, h6⟩ := h r hr
  unfold rowComplete
  rw [h6]
  simp [h1, h2, h3, h4, h5]

/-! ## The indicator step: base content is untouched -/

theorem add_technical_indicators_map_base (sq : ℚ → ℚ) (l : List Row) :
    (add_technical_indicators sq l).map base = l.map base := by
  unfold add_technical_indicators
  rw [List.map_map]
  exact range_map_getD l dRow base

theorem add_technical_indicators_map_volume (sq : ℚ → ℚ) (l : List Row) :
    (add_technical_indicators sq l).map (fun r => r.volume) = l.map (fun r => r.volume) := by
  unfold add_technical_indicators
  rw [List.map_map]
  exact range_map_getD l dRow (fun r => r.volume)

theorem add_technical_indicators_mem (sq : ℚ → ℚ) (l : List Row) (r : Row)
    (h : r ∈ add_technical_indicators sq l) :
    ∃ r0 ∈ l, r.date = r0.date ∧ r.open_ = r0.open_ ∧ r.high = r0.high ∧
      r.low = r0.low ∧ r.close = r0.close ∧ r.volume = r0.volume := by
  unfold add_technical_indicators at h
  rw [List.mem_map] at h
  obtain ⟨i, hi, rfl⟩ := h
  rw [List.mem_range] at hi
  exact ⟨l.getD i dRow, getD_mem_of_lt l dRow hi, rfl, rfl, rfl, rfl, rfl, rfl⟩

theorem add_technical_indicators_get? (sq : ℚ → ℚ) (l : List Row) (i : ℕ)
    (hi : i < l.length) :
    (add_technical_indicators sq l).get? i =
      some { l.getD i dRow with inds := some (indRecordAt sq l i) } := by
  unfold add_technical_indicators
  rw [List.get?_map, List.get?_range hi]
  rfl

/-! ## Permutation invariance of the thresholds -/

theorem filterMap_congr_of_map_eq {α β : Type} (f : α → Option β) :
    ∀ {l₁ l₂ : List α}, l₁.map f = l₂.map f → l₁.filterMap f = l₂.filterMap f := by
  intro l₁
  induction l₁ with
  | nil =>
    intro l₂ h
    cases l₂ with
    | nil => rfl
    | cons b t => exact absurd h (by simp)
  | cons a t ih =>
    intro l₂ h
    cases l₂ with
    | nil => exact absurd h (by simp)
    | cons b t2 =>
      rw [List.map_cons, List.map_cons, List.cons_eq_cons] at h
      obtain ⟨h1, h2⟩ := h
      rw [List.filterMap_cons, List.filterMap_cons, h1, ih h2]

theorem quantile99_perm {vs vs' : List ℚ} (h : vs.Perm vs') : quantile99 vs = quantile99 vs' := by
  have hs : List.insertionSort (· ≤ ·) vs = List.insertionSort (· ≤ ·) vs' := by
    refine List.eq_of_perm_of_sorted ?_ (List.sorted_insertionSort _ _)
      (List.sorted_insertionSort _ _)
    exact ((List.perm_insertionSort _ vs).trans h).trans (List.perm_insertionSort _ vs').symm
  unfold quantile99
  rw [hs]

theorem volThreshold_perm {l l' : List Row} (h : l.Perm l') :
    volThreshold l = volThreshold l' := by
  unfold volThreshold
  rw [quantile99_perm (h.filterMap _)]

theorem volThreshold_of_map_volume_eq {l l' : List Row}
    (h : l.map (fun r => r.volume) = l'.map (fun r => r.volume)) :
    volThreshold l = volThreshold l' := by
  unfold volThreshold
  rw [filterMap_congr_of_map_eq _ h]

/-! ## The integrity step on fully valid frames -/

theorem dedupKeepLast_id : ∀ l : List Row,
    (l.map (fun r => r.date)).Nodup → dedupKeepLast l = l := by
  intro l
  induction l with
  | nil => intro _; rfl
  | cons a t ih =>
    intro h
    rw [List.map_cons, List.nodup_cons] at h
    obtain ⟨hnotin, htail⟩ := h
    rw [dedupKeepLast, if_neg, ih htail]
    rw [List.any_eq_true]
    rintro ⟨y, hy, hyd⟩
    have hyd2 : y.date = a.date := by simpa using hyd
    exact hnotin (List.mem_map.mpr ⟨y, hy, hyd2⟩)

theorem validate_eq_dedup (l : List Row)
    (h1 : ∀ r ∈ l, badHL r = false)
    (h2 : ∀ r ∈ l, badNonPos (fun r => r.open_) r = false)
    (h3 : ∀ r ∈ l, badNonPos (fun r => r.high) r = false)
    (h4 : ∀ r ∈ l, badNonPos (fun r => r.low) r = false)
    (h5 : ∀ r ∈ l, badNonPos (fun r => r.close) r = false)
    (h6 : ∀ r ∈ l, badVolume (volThreshold l) r = false) :
    validate_data_integrity l = dedupKeepLast l := by
  unfold validate_data_integrity dropHL dropNonPos dropExtremeVolume
  have e1 : l.filter (fun r => !badHL r) = l :=
    List.filter_eq_self.mpr (fun r hr => by rw [h1 r hr]; rfl)
  rw [e1]
  have e2 : l.filter (fun r => !badNonPos (fun r => r.open_) r) = l :=
    List.filter_eq_self.mpr (fun r hr => by rw [h2 r hr]; rfl)
  rw [e2]
  have e3 : l.filter (fun r => !badNonPos (fun r => r.high) r) = l :=
    List.filter_eq_self.mpr (fun r hr => by rw [h3 r hr]; rfl)
  rw [e3]
  have e4 : l.filter (fun r => !badNonPos (fun r => r.low) r) = l :=
    List.filter_eq_self.mpr (fun r hr => by rw [h4 r hr]; rfl)
  rw [e4]
  have e5 : l.filter (fun r => !badNonPos (fun r => r.close) r) = l :=
    List.filter_eq_self.mpr (fun r hr => by rw [h5 r hr]; rfl)
  rw [e5]
  have e6 : l.filter (fun r => !badVolume (volThreshold l) r) = l :=
    List.filter_eq_self.mpr (fun r hr => by rw [h6 r hr]; rfl)
  rw [e6]

theorem dedupKeepLast_split : ∀ (l : List Row) (r : Row), r ∈ dedupKeepLast l →
    ∃ l1 l2, l = l1 ++ r :: l2 ∧ ∀ y ∈ l2, y.date ≠ r.date := by
  intro l
  induction l with
  | nil => intro r h; simp [dedupKeepLast] at h
  | cons a t ih =>
    intro r h
    rw [dedupKeepLast] at h
    by_cases hdup : t.any (fun y => y.date == a.date)
    · rw [if_pos hdup] at h
      obtain ⟨l1, l2, heq, hne⟩ := ih r h
      exact ⟨a :: l1, l2, by rw [heq, List.cons_append], hne⟩
    · rw [if_neg hdup] at h
      rcases List.mem_cons.mp h with rfl | hmem
      · refine ⟨[], t, rfl, ?_⟩
        intro y hy hyd
        exact hdup (List.any_eq_true.mpr ⟨y, hy, by simp [hyd]⟩)
      · obtain ⟨l1, l2, heq, hne⟩ := ih r hmem
        exact ⟨a :: l1, l2, by rw [heq, List.cons_append], hne⟩

theorem dedupKeepLast_dates_toFinset : ∀ l : List Row,
    ((dedupKeepLast l).map (fun r => r.date)).toFinset =
      (l.map (fun r => r.date)).toFinset := by
  intro l
  induction l with
  | nil => rfl
  | cons a t ih =>
    rw [dedupKeepLast]
    by_cases hdup : t.any (fun y => y.date == a.date)
    · rw [if_pos hdup, List.map_cons, List.toFinset_cons, ih]
      obtain ⟨y, hy, hyd⟩ := List.any_eq_true.mp hdup
      have hyd2 : y.date = a.date := by simpa using hyd
      refine (Finset.insert_eq_self.mpr ?_).symm
      exact hyd2 ▸ List.mem_toFinset.mpr (List.mem_map.mpr ⟨y, hy, rfl⟩)
    · rw [if_neg hdup, List.map_cons, List.map_cons, List.toFinset_cons, List.toFinset_cons, ih]

/-! ## The deduplicated row is the last occurrence of its date -/

theorem add_technical_indicators_length (sq : ℚ → ℚ) (l : List Row) :
    (add_technical_indicators sq l).length = l.length := by
  unfold add_technical_indicators
  simp

theorem sortByDate_length (l : List Row) : (sortByDate l).length = l.length :=
  (sortByDate_perm l).length_eq

theorem dedup_addInd_last_occ (sq : ℚ → ℚ) (x : List Row) (r : Row)
    (hmono : List.Pairwise rowDateLe x)
    (hr : r ∈ dedupKeepLast (add_technical_indicators sq (sortByDate x))) :
    ∃ i, i < x.length ∧ baseMatch (x.getD i dRow) r ∧
      ∀ j, i < j → j < x.length → (x.getD j dRow).date ≠ r.date := by
  rw [sortByDate_of_sorted x hmono] at hr
  obtain ⟨l1, l2, hsplit, hl2⟩ :=
    dedupKeepLast_split (add_technical_indicators sq x) r hr
  have hlen : (add_technical_indicators sq x).length = x.length :=
    add_technical_indicators_length sq x
  have hk : (add_technical_indicators sq x).get? l1.length = some r := by
    rw [hsplit, List.get?_append_right (le_refl _)]
    simp
  have hkl : l1.length < (add_technical_indicators sq x).length := by
    obtain ⟨h, _⟩ := List.get?_eq_some.mp hk
    exact h
  have hkx : l1.length < x.length := hlen ▸ hkl
  have hk2 := add_technical_indicators_get? sq x l1.length hkx
  rw [hk] at hk2
  have hrval : r = { x.getD l1.length dRow with
      inds := some (indRecordAt sq x l1.length) } :=
    Option.some_injective _ hk2
  refine ⟨l1.length, hkx, ?_, ?_⟩
  · rw [hrval]
    exact ⟨rfl, rfl, rfl, rfl, rfl, rfl⟩
  · intro j hij hjx hdate
    have hr'' := add_technical_indicators_get? sq x j hjx
    have hsplit2 : (add_technical_indicators sq x).get? j =
        l2.get? (j - l1.length - 1) := by
      rw [hsplit, List.get?_append_right (le_of_lt hij)]
      have hpos : j - l1.length = (j - l1.length - 1) + 1 := by omega
      rw [hpos]
      rfl
    have hr''mem : { x.getD j dRow with
        inds := some (indRecordAt sq x j) } ∈ l2 :=
      List.get?_mem (hsplit2.symm.trans hr'')
    apply hl2 _ hr''mem
    show (x.getD j dRow).date = r.date
    exact hdate

/-! ## The pipeline on fully valid frames -/

theorem valid_transfer (x : List Row) (hV : validFrameB x = true) :
    ∀ r ∈ sortByDate x, rowValidB (volThreshold x) r = true := by
  intro r hr
  exact List.all_eq_true.mp hV r ((sortByDate_perm x).mem_iff.mp hr)

theorem process_clean_eq (sq : ℚ → ℚ) (x : List Row) (hV : validFrameB x = true)
    (hx : x ≠ []) :
    process_historical_data sq x =
      dedupKeepLast (add_technical_indicators sq (sortByDate x)) := by
  have hVs := valid_transfer x hV
  have hcomplete : ∀ r ∈ sortByDate x, r.open_.isSome ∧ r.high.isSome ∧ r.low.isSome ∧
      r.close.isSome ∧ r.volume.isSome ∧ r.inds = none := by
    intro r hr
    obtain ⟨⟨o, ho, _⟩, ⟨hv0, hh, _⟩, ⟨lv0, hl, _⟩, ⟨c, hc, _⟩, ⟨v, hvv, _⟩, hinds, _⟩ :=
      rowValidB_spec (hVs r hr)
    exact ⟨by rw [ho]; rfl, by rw [hh]; rfl, by rw [hl]; rfl, by rw [hc]; rfl,
      by rw [hvv]; rfl, hinds⟩
  unfold process_historical_data
  rw [if_neg (by simpa [List.isEmpty_iff] using hx)]
  rw [handle_missing_values_id (sortByDate x) hcomplete]
  -- validity facts on the indicator-decorated frame
  have hmem : ∀ r' ∈ add_technical_indicators sq (sortByDate x),
      ∃ r0 ∈ sortByDate x, r'.date = r0.date ∧ r'.open_ = r0.open_ ∧ r'.high = r0.high ∧
        r'.low = r0.low ∧ r'.close = r0.close ∧ r'.volume = r0.volume :=
    fun r' h => add_technical_indicators_mem sq _ r' h
  have hthr : volThreshold (add_technical_indicators sq (sortByDate x)) = volThreshold x := by
    rw [volThreshold_of_map_volume_eq (add_technical_indicators_map_volume sq (sortByDate x))]
    exact volThreshold_perm (sortByDate_perm x)
  refine validate_eq_dedup _ ?_ ?_ ?_ ?_ ?_ ?_
  · intro r' hr'
    obtain ⟨r0, hr0, _, _, hh, hl, _, _⟩ := hmem r' hr'
    obtain ⟨_, ⟨hv0, hh0, _⟩, ⟨lv0, hl0, _⟩, _, _, _, hlh⟩ := rowValidB_spec (hVs r0 hr0)
    unfold badHL
    rw [hh, hl, hh0, hl0]
    simp only [decide_eq_false_iff_not, not_lt]
    exact hlh hv0 lv0 hh0 hl0
  · intro r' hr'
    obtain ⟨r0, hr0, _, ho, _, _, _, _⟩ := hmem r' hr'
    obtain ⟨⟨o, ho0, hpo⟩, _, _, _, _, _, _⟩ := rowValidB_spec (hVs r0 hr0)
    simp only [badNonPos, ho, ho0, decide_eq_false_iff_not, not_le]
    exact hpo
  · intro r' hr'
    obtain ⟨r0, hr0, _, _, hh, _, _, _⟩ := hmem r' hr'
    obtain ⟨_, ⟨hv0, hh0, hph⟩, _, _, _, _, _⟩ := rowValidB_spec (hVs r0 hr0)
    simp only [badNonPos, hh, hh0, decide_eq_false_iff_not, not_le]
    exact hph
  · intro r' hr'
    obtain ⟨r0, hr0, _, _, _, hl, _, _⟩ := hmem r' hr'
    obtain ⟨_, _, ⟨lv0, hl0, hpl⟩, _, _, _, _⟩ := rowValidB_spec (hVs r0 hr0)
    simp only [badNonPos, hl, hl0, decide_eq_false_iff_not, not_le]
    exact hpl
  · intro r' hr'
    obtain ⟨r0, hr0, _, _, _, _, hc, _⟩ := hmem r' hr'
    obtain ⟨_, _, _, ⟨c, hc0, hpc⟩, _, _, _⟩ := rowValidB_spec (hVs r0 hr0)
    simp only [badNonPos, hc, hc0, decide_eq_false_iff_not, not_le]
    exact hpc
  · intro r' hr'
    obtain ⟨r0, hr0, _, _, _, _, _, hv⟩ := hmem r' hr'
    obtain ⟨_, _, _, _, ⟨v, hv0, hvt⟩, _, _⟩ := rowValidB_spec (hVs r0 hr0)
    unfold badVolume
    rw [hthr, hv, hv0]
    cases hth : volThreshold x with
    | none => rfl
    | some t =>
      simp only [decide_eq_false_iff_not, not_lt]
      exact hvt t hth

/-- Claim C6 (amended): for every non-empty input the cleaned output is
strictly ascending by date with no duplicate dates; when moreover every
row is individually valid (non-null cells, `High >= Low`, positive
prices, volume within ten times the frame's 99th-percentile volume, and
no indicator columns yet), nothing but the duplicate-date dedup drops
rows, so the output row count equals the distinct-date count; and when
such a valid input is in addition already non-decreasing by date — the
regime in which `sort_index` is guaranteed to leave the frame unchanged,
so the order of duplicate-date rows is pinned down — each retained row is
the last occurrence of its date in the input.  (Rows dropped by
missing-value handling or integrity repair make the count smaller than
the distinct-date count, see the counterexample; and on a frame that
needs actual sorting, the unstable quicksort leaves the retained
representative of a duplicated date unspecified.) -/
theorem claim_C6_thm (sq : ℚ → ℚ) (x : List Row) (hx : x ≠ []) :
    List.Pairwise (· < ·) ((process_historical_data sq x).map (fun r => r.date)) ∧
      (validFrameB x = true →
        (process_historical_data sq x).length = countDistinctDates x ∧
        (List.Pairwise rowDateLe x →
          ∀ r ∈ process_historical_data sq x, ∃ i, i < x.length ∧
            baseMatch (x.getD i dRow) r ∧
            ∀ j, i < j → j < x.length → (x.getD j dRow).date ≠ r.date)) := by
  constructor
  · unfold process_historical_data
    by_cases hemp : x.isEmpty
    · exact absurd (List.isEmpty_iff.mp hemp) hx
    · rw [if_neg hemp]
      refine validate_dates_lt _ ?_
      rw [add_technical_indicators_map_date]
      exact List.Pairwise.sublist (handle_missing_dates_sublist _) (sortByDate_dates_le x)
  · intro hV
    rw [process_clean_eq sq x hV hx]
    have hle2 : List.Pairwise (· ≤ ·)
        ((add_technical_indicators sq (sortByDate x)).map (fun r => r.date)) := by
      rw [add_technical_indicators_map_date]
      exact sortByDate_dates_le x
    constructor
    · have hstrict := dedupKeepLast_dates_lt _ hle2
      have hnd : ((dedupKeepLast (add_technical_indicators sq (sortByDate x))).map
          (fun r => r.date)).Nodup :=
        hstrict.imp (fun h => ne_of_lt h)
      have hperm := (sortByDate_perm x).map (fun r => r.date)
      calc (dedupKeepLast (add_technical_indicators sq (sortByDate x))).length
          = ((dedupKeepLast (add_technical_indicators sq (sortByDate x))).map
              (fun r => r.date)).length := (List.length_map _ _).symm
        _ = ((dedupKeepLast (add_technical_indicators sq (sortByDate x))).map
              (fun r => r.date)).toFinset.card := (List.toFinset_card_of_nodup hnd).symm
        _ = ((add_technical_indicators sq (sortByDate x)).map
              (fun r => r.date)).toFinset.card := by rw [dedupKeepLast_dates_toFinset]
        _ = ((sortByDate x).map (fun r => r.date)).toFinset.card := by
              rw [add_technical_indicators_map_date]
        _ = (x.map (fun r => r.date)).toFinset.card := by rw [List.toFinset_eq_of_perm _ _ hperm]
        _ = countDistinctDates x := by rw [countDistinctDates, ← List.card_toFinset]
    · intro hmono r hr
      exact dedup_addInd_last_occ sq x r hmono hr

/-- Claim C7 (amended): on an already-clean frame (strictly ascending
unique dates, no nulls, no integrity violations) the pipeline keeps every
row and every original cell unchanged — the base content of the output
equals the base content of the input.  It is not literally a no-op: the
technical-indicator columns are attached (see the counterexample). -/
theorem claim_C7_thm (sq : ℚ → ℚ) (x : List Row) (hV : validFrameB x = true)
    (hsorted : List.Pairwise (fun a b : Row => a.date < b.date) x) :
    (process_historical_data sq x).map base = x.map base := by
  by_cases hx : x = []
  · subst hx; rfl
  · rw [process_clean_eq sq x hV hx]
    have hsort_eq : sortByDate x = x :=
      sortByDate_of_sorted x (hsorted.imp (fun h => le_of_lt h))
    rw [hsort_eq]
    have hnd : ((add_technical_indicators sq x).map (fun r => r.date)).Nodup := by
      rw [add_technical_indicators_map_date]
      refine List.Pairwise.imp (fun h => ne_of_lt h) ?_
      rw [List.pairwise_map]
      exact hsorted
    rw [dedupKeepLast_id _ hnd]
    exact add_technical_indicators_map_base sq x

/-- Claim C9: no internal failure of the cleaning pipeline escapes to the
caller: whichever combination of the sort, missing-value, indicator and
integrity steps raises, `process_historical_data` returns a frame — the
original input when the uncaught sort code raised (or the frame was
empty), and otherwise the input processed by the steps that did not
fail, since each helper swallows its own exception and returns its
input. -/
theorem claim_C9_thm (fl : Faults) (sq : ℚ → ℚ) (l : List Row) :
    ∃ y, process_historical_dataE fl sq l = Except.ok y ∧
      (y = l ∨ y = validate_data_integrityF fl.integFails
        (add_technical_indicatorsF fl.indFails sq
          (handle_missing_valuesF fl.missFails (sortByDate l)))) := by
  unfold process_historical_dataE processBody
  by_cases hemp : l.isEmpty
  · rw [if_pos hemp]
    exact ⟨l, rfl, Or.inl rfl⟩
  · rw [if_neg hemp]
    unfold raiseIf
    by_cases hsf : fl.sortFails = true
    · rw [if_pos hsf]
      exact ⟨l, rfl, Or.inl rfl⟩
    · rw [if_neg hsf]
      exact ⟨_, rfl, Or.inr rfl⟩

/-! ## Closed-instance checks: witnesses and counterexamples -/

theorem claim_C3_witness :
    stepC3 ∈ predictLoopAux modelC3 scalerUnit 0 1 wC3 ∧
      (stepC3.1.open_ = (lastRowD wC3).open_ ∧ stepC3.1.high = (lastRowD wC3).high ∧
        stepC3.1.low = (lastRowD wC3).low ∧ stepC3.1.volume = (lastRowD wC3).volume) := by
  have hmem : stepC3 ∈ predictLoopAux modelC3 scalerUnit 0 1 wC3 := by
    unfold stepC3
    refine getD_mem_of_lt _ _ ?_
    rw [predictLoopAux_length]
    exact Nat.one_pos
  exact ⟨hmem, claim_C3_thm modelC3 scalerUnit 1 0 wC3 stepC3 hmem⟩

theorem claim_C4_witness :
    predict foC sfC stEmpty "A" ([] : List FeatVec) 1 = ([], stEmpty) :=
  (claim_C4_thm foC sfC stEmpty "A" [] 1 rfl).1 (by decide)

theorem claim_C10_witness :
    (train_model foC sfFail stEmpty "A" data90).1 = true ∧
      List.lookup (strUpper "A") ((train_model foC sfFail stEmpty "A" data90).2).models =
        some foC.net ∧
      List.lookup (strUpper "A") ((train_model foC sfFail stEmpty "A" data90).2).scalers =
        some (fitScaler data90) ∧
      (sfFail.m = true → ((train_model foC sfFail stEmpty "A" data90).2).disk = stEmpty.disk) :=
  claim_C10_thm foC sfFail stEmpty "A" data90 (by simp [data90])

theorem claim_C1_witness :
    ∃ p, (predict foC sfC stC "A" dataC 1).1.get? 0 = some p ∧
      p.day = 0 + 1 ∧
      p.confidence = max 0.5 (1.0 - ((0 : ℕ) : ℚ) * 0.02) ∧
      p.confidenceUpper = p.price + p.price * 0.05 * (1 + ((0 : ℕ) : ℚ) * 0.1) ∧
      p.confidenceLower = max 0 (p.price - p.price * 0.05 * (1 + ((0 : ℕ) : ℚ) * 0.1)) :=
  claim_C1_thm foC sfC stC "A" dataC 1 modelOne scalerUnit 0 rfl rfl (by simp [dataC])
    Nat.one_pos

theorem claim_C2_witness :
    (formatPredictions 0 (predict foC sfC stC "A" dataC 1).1).length = 1 ∧
      ((formatPredictions 0 (predict foC sfC stC "A" dataC 1).1).get? 0).map
        (fun q => q.date) = some (0 + ((0 : ℕ) : ℤ) + 1) := by
  have h := claim_C2_thm foC sfC stC "A" dataC 1 0 modelOne scalerUnit rfl rfl (by simp [dataC])
  exact ⟨h.1, h.2 0 Nat.one_pos⟩

theorem claim_C8_witness :
    ∃ p, ((predictLoopAux modelOne scalerUnit 0 1 wC3).map Prod.snd).get? 0 = some p ∧
      ((0.5 ≤ p.confidence ∧ p.confidence ≤ p.confidence) ∧
        (0 ≤ p.price → p.price ≤ p.price →
          p.confidenceUpper - p.confidenceLower ≤ p.confidenceUpper - p.confidenceLower)) := by
  have hlt : 0 < ((predictLoopAux modelOne scalerUnit 0 1 wC3).map Prod.snd).length := by
    rw [List.length_map, predictLoopAux_length]
    exact Nat.one_pos
  have h0 : ((predictLoopAux modelOne scalerUnit 0 1 wC3).map Prod.snd).get? 0 =
      some (((predictLoopAux modelOne scalerUnit 0 1 wC3).map Prod.snd).getD 0 dPrediction) := by
    rw [List.getD_eq_get?, List.get?_eq_get hlt]
    rfl
  exact ⟨_, h0, claim_C8_thm modelOne scalerUnit wC3 1 0 0 _ _ (le_refl 0) Nat.one_pos h0 h0⟩

theorem claim_C2_cex :
    ¬ ((formatPredictions 0 (predict foC sfC stEmpty "A" ([] : List FeatVec) 1).1).length = 1) := by
  decide

theorem claim_C6_cex :
    ¬ ((process_historical_data qid xBad).length = countDistinctDates xBad) := by
  decide

theorem xDup_valid : validFrameB xDup = true := by
  norm_num [validFrameB, rowValidB, volThreshold, quantile99, xDup, mkRow, List.all_cons,
    List.insertionSort, List.orderedInsert]

theorem claim_C6_witness :
    validFrameB xDup = true ∧ xDup ≠ [] ∧ List.Pairwise rowDateLe xDup ∧
      (process_historical_data qid xDup).length = countDistinctDates xDup ∧
      (∀ r ∈ process_historical_data qid xDup, ∃ i, i < xDup.length ∧
        baseMatch (xDup.getD i dRow) r ∧
        ∀ j, i < j → j < xDup.length → (xDup.getD j dRow).date ≠ r.date) := by
  have hne : xDup ≠ [] := by simp [xDup]
  have hmono : List.Pairwise rowDateLe xDup := by decide
  have h := (claim_C6_thm qid xDup hne).2 xDup_valid
  exact ⟨xDup_valid, hne, hmono, h.1, h.2 hmono⟩

theorem xClean_valid : validFrameB xClean = true := by
  norm_num [validFrameB, rowValidB, volThreshold, quantile99, xClean, mkRow, List.all_cons,
    List.insertionSort, List.orderedInsert]

theorem claim_C7_witness :
    validFrameB xClean = true ∧
      List.Pairwise (fun a b : Row => a.date < b.date) xClean ∧
      (process_historical_data qid xClean).map base = xClean.map base := by
  have hs : List.Pairwise (fun a b : Row => a.date < b.date) xClean := by decide
  exact ⟨xClean_valid, hs, claim_C7_thm qid xClean xClean_valid hs⟩

theorem claim_C7_cex : process_historical_data qid xClean ≠ xClean := by
  intro h
  rw [process_clean_eq qid xClean xClean_valid (by simp [xClean])] at h
  have hsort : sortByDate xClean = xClean := by decide
  rw [hsort] at h
  have hnd : ((add_technical_indicators qid xClean).map (fun r => r.date)).Nodup := by
    rw [add_technical_indicators_map_date]
    decide
  rw [dedupKeepLast_id _ hnd] at h
  have h0 := congrArg (fun l => l.get? 0) h
  simp only [] at h0
  rw [add_technical_indicators_get? qid xClean 0 (by decide)] at h0
  have h1 : xClean.get? 0 = some (mkRow 0 1 2 1 1 1) := rfl
  rw [h1] at h0
  have h2 := Option.some_injective _ h0
  have h3 := congrArg Row.inds h2
  simp [mkRow] at h3

theorem claim_C1_cex :
    (predict foC sfC stC "A" dataC 1).1.map (fun p => p.confidence) = [1] ∧
      ¬ ((1 : ℚ) = max 0.5 (1.0 - (1 : ℚ) * 0.02)) := by
  constructor
  · rw [predict_model_present foC sfC stC "A" dataC 1 modelOne scalerUnit rfl rfl
      (by simp [dataC])]
    simp only [predictLoopAux, List.map_cons, List.map_nil]
    norm_num
  · norm_num

theorem getLastD_replicate (n : ℕ) (a : FeatVec) :
    ∀ d, (List.replicate (n + 1) a).getLastD d = a := by
  induction n with
  | zero => intro d; rfl
  | succ m ih =>
    intro d
    rw [List.replicate_succ, List.getLastD_cons]
    exact ih a

theorem lastRowD_concat (l : List FeatVec) (a : FeatVec) : lastRowD (l ++ [a]) = a := by
  unfold lastRowD
  exact List.getLastD_concat _ _ _

theorem claim_C8_cex :
    ((predict foC sfC stDec "A" dataC 2).1.getD 1 dPrediction).confidenceUpper -
        ((predict foC sfC stDec "A" dataC 2).1.getD 1 dPrediction).confidenceLower <
      ((predict foC sfC stDec "A" dataC 2).1.getD 0 dPrediction).confidenceUpper -
        ((predict foC sfC stDec "A" dataC 2).1.getD 0 dPrediction).confidenceLower := by
  have ht : transform scalerUnit oneVec = oneVec := by
    norm_num [transform, scale, scalerUnit, oneVec]
  have hw : dataC.map (transform scalerUnit) = List.replicate 60 oneVec := by
    rw [dataC, List.map_replicate, ht]
  have hlast : lastRowD (List.replicate 60 oneVec) = oneVec := by
    have := getLastD_replicate 59 oneVec dFeat
    norm_num at this
    exact this
  rw [predict_model_present foC sfC stDec "A" dataC 2 modelHalf scalerUnit rfl rfl
    (by simp [dataC])]
  rw [hw]
  have hdrop : (List.replicate 60 oneVec).drop (dataC.length - 60) = List.replicate 60 oneVec := by
    simp [dataC]
  rw [hdrop]
  simp only [predictLoopAux, List.map_cons, List.map_nil, List.getD_cons_zero,
    List.getD_cons_succ, modelHalf, hlast, lastRowD_concat]
  norm_num [inverseTransform, unscale, scalerUnit, oneVec]
